import Mathlib

/-!
Shallow embedding of the diffusion random-walk simulator (`DiffusionSim` in
the JavaScript source) over exact rationals.

JavaScript `Math.sqrt`, `Math.cos`, `Math.sin`, `Math.exp` and `Math.PI` are
transcendental, so they are abstracted into an explicit record of functions
(`MathFns`); every theorem below holds for every interpretation of those
functions.  `Math.random()` is modelled as an explicit stream `u : ℕ → ℚ`
of draws together with a cursor that each operation threads through, so the
order of random consumption matches the source.  `Float32Array` silently
drops out-of-bounds writes, which `writeBuf` reproduces.
-/

-- ── Constants ──

def DOMAIN_LENGTH : ℚ := 100

def VISIBLE_LENGTH : ℚ := 10

def DOMAIN_WIDTH : ℚ := 4

def NUM_BINS : ℕ := 40

def MAX_ATOMS : ℕ := 5000

/-- Abstraction of the transcendental JavaScript `Math` primitives used by
the simulator. -/
structure MathFns where
  sqrt : ℚ → ℚ
  cos : ℚ → ℚ
  sin : ℚ → ℚ
  exp : ℚ → ℚ
  pi : ℚ

/-- State of the simulation engine: the fields of the `DiffusionSim` class.
`atoms` is the flat position buffer (index `i * 3 + c` holds component `c`
of particle `i`), as in the source's `Float32Array(MAX_ATOMS * 3)`. -/
structure DiffusionSim where
  caseNum : ℤ
  gamma : ℚ
  lambda : ℚ
  numAtoms : ℕ
  time : ℚ
  running : Bool
  speed : ℚ
  atoms : ℕ → ℚ

-- ── Derived getters ──

def DiffusionSim.D (s : DiffusionSim) : ℚ := s.gamma * s.lambda * s.lambda / 6

def DiffusionSim.domainMin (s : DiffusionSim) : ℚ :=
  if s.caseNum = 2 then -(DOMAIN_LENGTH / 2) else 0

def DiffusionSim.domainMax (s : DiffusionSim) : ℚ :=
  if s.caseNum = 2 then DOMAIN_LENGTH / 2 else DOMAIN_LENGTH

def DiffusionSim.visibleMin (s : DiffusionSim) : ℚ :=
  if s.caseNum = 2 then -(VISIBLE_LENGTH / 2) else 0

def DiffusionSim.visibleMax (s : DiffusionSim) : ℚ :=
  if s.caseNum = 2 then VISIBLE_LENGTH / 2 else VISIBLE_LENGTH

-- ── Particle buffer ──

/-- `this.atoms[i] = v` on a `Float32Array` of length `MAX_ATOMS * 3`:
an out-of-bounds write is silently dropped. -/
def writeBuf (a : ℕ → ℚ) (i : ℕ) (v : ℚ) : ℕ → ℚ :=
  fun j => if i < MAX_ATOMS * 3 ∧ j = i then v else a j

/-- Seed particle `i` at the source plane: `x = 0`, lateral `y`/`z` uniform
via `(Math.random() - 0.5) * W` (loop body of `reset` and `setNumAtoms`). -/
def seedAtom (u : ℕ → ℚ) (i : ℕ) (ak : (ℕ → ℚ) × ℕ) : (ℕ → ℚ) × ℕ :=
  let a1 := writeBuf ak.1 (i * 3) 0
  let a2 := writeBuf a1 (i * 3 + 1) ((u ak.2 - 1 / 2) * DOMAIN_WIDTH)
  let a3 := writeBuf a2 (i * 3 + 2) ((u (ak.2 + 1) - 1 / 2) * DOMAIN_WIDTH)
  (a3, ak.2 + 2)

/-- Seed particles `lo, lo + 1, …, lo + m - 1` in ascending order. -/
def seedRange (u : ℕ → ℚ) (lo : ℕ) (ak : (ℕ → ℚ) × ℕ) : ℕ → (ℕ → ℚ) × ℕ
  | 0 => ak
  | m + 1 => seedAtom u (lo + m) (seedRange u lo ak m)

-- ── Reset / setters ──

def DiffusionSim.reset (s : DiffusionSim) (u : ℕ → ℚ) (k : ℕ) : DiffusionSim × ℕ :=
  let r := seedRange u 0 (s.atoms, k) s.numAtoms
  ({ s with time := 0, atoms := r.1 }, r.2)

def DiffusionSim.setCase (s : DiffusionSim) (n : ℤ) (u : ℕ → ℚ) (k : ℕ) :
    DiffusionSim × ℕ :=
  DiffusionSim.reset { s with caseNum := n } u k

def DiffusionSim.setNumAtoms (s : DiffusionSim) (n : ℕ) (u : ℕ → ℚ) (k : ℕ) :
    DiffusionSim × ℕ :=
  if s.numAtoms < n then
    let r := seedRange u s.numAtoms (s.atoms, k) (n - s.numAtoms)
    ({ s with numAtoms := n, atoms := r.1 }, r.2)
  else
    ({ s with numAtoms := n }, k)

-- ── Boundary handling (the block inlined in `step`, lines 86–107) ──

/-- Case-specific x-axis correction applied by `step` after a jump: the
source's two sequential reassignments of `x` per case, written as nested
conditionals. -/
def correctX (caseNum : ℤ) (xMin xMax x : ℚ) : ℚ :=
  if caseNum = 1 then
    if (if x < 0 then 0 else x) > xMax then xMax else if x < 0 then 0 else x
  else if caseNum = 2 then
    if (if x < xMin then xMin else x) > xMax then xMax
    else if x < xMin then xMin else x
  else
    if (if x < 0 then -x else x) > xMax then xMax else if x < 0 then -x else x

/-- Periodic wrap used for `y` and `z`:
`if (y < -hw) y += W; else if (y > hw) y -= W;` with `hw = W / 2`. -/
def wrapPeriodic (y : ℚ) : ℚ :=
  if y < -(DOMAIN_WIDTH / 2) then y + DOMAIN_WIDTH
  else if y > DOMAIN_WIDTH / 2 then y - DOMAIN_WIDTH
  else y

-- ── Stepping ──

/-- Body of the per-particle loop in `step`: with probability `p` the
particle jumps by `λ` in a uniformly random direction, then the boundary
rules are applied.  Consumes one random draw on a skipped particle and
three on a jump, exactly as the source does. -/
def stepAtom (f : MathFns) (lam xMin xMax : ℚ) (caseNum : ℤ) (p : ℚ) (u : ℕ → ℚ)
    (ak : (ℕ → ℚ) × ℕ) (i : ℕ) : (ℕ → ℚ) × ℕ :=
  if p ≤ u ak.2 then (ak.1, ak.2 + 1)
  else
    let idx := i * 3
    let cosT := 2 * u (ak.2 + 1) - 1
    let sinT := f.sqrt (1 - cosT * cosT)
    let phi := 6283185307 / 1000000000 * u (ak.2 + 2)
    let a1 := writeBuf ak.1 idx (ak.1 idx + lam * sinT * f.cos phi)
    let a2 := writeBuf a1 (idx + 1) (a1 (idx + 1) + lam * sinT * f.sin phi)
    let a3 := writeBuf a2 (idx + 2) (a2 (idx + 2) + lam * cosT)
    let a4 := writeBuf a3 idx (correctX caseNum xMin xMax (a3 idx))
    let y := wrapPeriodic (a4 (idx + 1))
    let z := wrapPeriodic (a4 (idx + 2))
    let a5 := writeBuf a4 (idx + 1) y
    let a6 := writeBuf a5 (idx + 2) z
    (a6, ak.2 + 3)

/-- Inner loop of `step`: particles `0, …, n - 1` in ascending order. -/
def stepAtoms (f : MathFns) (lam xMin xMax : ℚ) (caseNum : ℤ) (p : ℚ) (u : ℕ → ℚ)
    (ak : (ℕ → ℚ) × ℕ) : ℕ → (ℕ → ℚ) × ℕ
  | 0 => ak
  | n + 1 => stepAtom f lam xMin xMax caseNum p u
      (stepAtoms f lam xMin xMax caseNum p u ak n) n

/-- Outer sub-step loop of `step`; `p = Γ · subDt` is recomputed on each
sub-step as in the source. -/
def stepSub (f : MathFns) (lam xMin xMax : ℚ) (caseNum : ℤ) (gamma subDt : ℚ)
    (nAtoms : ℕ) (u : ℕ → ℚ) (ak : (ℕ → ℚ) × ℕ) : ℕ → (ℕ → ℚ) × ℕ
  | 0 => ak
  | m + 1 =>
    stepAtoms f lam xMin xMax caseNum (gamma * subDt) u
      (stepSub f lam xMin xMax caseNum gamma subDt nAtoms u ak m) nAtoms

/-- `DiffusionSim.step(dt)`. -/
def DiffusionSim.step (s : DiffusionSim) (f : MathFns) (dt : ℚ) (u : ℕ → ℚ) (k : ℕ) :
    DiffusionSim × ℕ :=
  if s.running = false then (s, k)
  else
    let simDt := dt * s.speed
    let subSteps := (max 1 ⌈s.gamma * simDt⌉).toNat
    let subDt := simDt / (subSteps : ℚ)
    let r := stepSub f s.lambda s.domainMin s.domainMax s.caseNum s.gamma subDt
      s.numAtoms u (s.atoms, k) subSteps
    ({ s with atoms := r.1, time := s.time + simDt }, r.2)

-- ── Histogram / queries ──

/-- `bins[b]++`. -/
def binIncr (bins : ℕ → ℕ) (b : ℕ) : ℕ → ℕ :=
  fun j => if j = b then bins j + 1 else bins j

/-- `Math.min(Math.floor((x - lo) / binW), NUM_BINS - 1)`. -/
def binOf (lo binW x : ℚ) : ℕ :=
  (min ⌊(x - lo) / binW⌋ ((NUM_BINS : ℤ) - 1)).toNat

/-- Loop of `getHistogram` over particles `0, …, n - 1`: particles with
`x < lo` or `x ≥ hi` are skipped. -/
def histLoop (lo hi binW : ℚ) (a : ℕ → ℚ) : ℕ → ℕ → ℕ
  | 0 => fun _ => 0
  | n + 1 =>
    if a (n * 3) < lo ∨ a (n * 3) ≥ hi then histLoop lo hi binW a n
    else binIncr (histLoop lo hi binW a n) (binOf lo binW (a (n * 3)))

def DiffusionSim.getHistogram (s : DiffusionSim) : ℕ → ℕ :=
  histLoop s.visibleMin s.visibleMax ((s.visibleMax - s.visibleMin) / (NUM_BINS : ℚ))
    s.atoms s.numAtoms

/-- Total of the `NUM_BINS` bin counts. -/
def binsTotal (bins : ℕ → ℕ) : ℕ := ∑ b ∈ Finset.range NUM_BINS, bins b

/-- Loop of `countInView`: inclusive on both ends. -/
def countLoop (lo hi : ℚ) (a : ℕ → ℚ) : ℕ → ℕ
  | 0 => 0
  | n + 1 =>
    countLoop lo hi a n + (if lo ≤ a (n * 3) ∧ a (n * 3) ≤ hi then 1 else 0)

def DiffusionSim.countInView (s : DiffusionSim) : ℕ :=
  countLoop s.visibleMin s.visibleMax s.atoms s.numAtoms

-- ── Analytical solution ──

/-- Abramowitz–Stegun 7.1.26 polynomial approximation of `erfc`, as in the
source (`0.3275911`, `0.254829592`, …), with `erfc(-x) = 2 - erfc(x)`. -/
def erfc (f : MathFns) (x : ℚ) : ℚ :=
  let ax := |x|
  let t := 1 / (1 + 3275911 / 10000000 * ax)
  let poly := t * (254829592 / 1000000000 + t * (-(284496736 / 1000000000) + t *
    (1421413741 / 1000000000 + t * (-(1453152027 / 1000000000) + t *
      (1061405429 / 1000000000)))))
  let r := poly * f.exp (-(ax * ax))
  if 0 ≤ x then r else 2 - r

/-- `DiffusionSim.analyticalAt(x)`. -/
def DiffusionSim.analyticalAt (s : DiffusionSim) (f : MathFns) (x : ℚ) : ℚ :=
  let Dt := s.D * s.time
  if s.caseNum = 1 then
    if Dt < 1 / 1000000000 then (if x < 1 / 100 then 1 else 0)
    else erfc f (x / (2 * f.sqrt Dt))
  else if Dt < 1 / 1000000000 then 0
  else
    let gauss := f.exp (-(x * x) / (4 * Dt))
    let pre :=
      if s.caseNum = 2 then 1 / (2 * f.sqrt (f.pi * Dt)) else 1 / f.sqrt (f.pi * Dt)
    pre * gauss

-- ── Concrete instances used by witnesses and counterexamples ──

/-- A trivial interpretation of the `Math` primitives; the paths exercised
by the concrete theorems below never evaluate them. -/
def trivFns : MathFns := ⟨fun x => x, fun x => x, fun x => x, fun x => x, 0⟩

/-- A constant random stream with all draws equal to `1/2 ∈ [0, 1)`. -/
def uHalf : ℕ → ℚ := fun _ => 1 / 2

/-- Constructor field values of `DiffusionSim` (before the initial
`reset()`), with a zeroed buffer. -/
def baseSim : DiffusionSim :=
  { caseNum := 1, gamma := 20, lambda := 1 / 2, numAtoms := 2000, time := 0,
    running := false, speed := 1, atoms := fun _ => 0 }

def simCase2 : DiffusionSim := { baseSim with caseNum := 2 }

def simCase3 : DiffusionSim := { baseSim with caseNum := 3 }

def sEmpty : DiffusionSim := { baseSim with numAtoms := 0 }

def sFull : DiffusionSim := { baseSim with numAtoms := MAX_ATOMS }

def sRun : DiffusionSim := { baseSim with numAtoms := 0, running := true }

def sRun2 : DiffusionSim := { baseSim with numAtoms := 2, running := true }

def sG0 : DiffusionSim := { baseSim with gamma := 0, numAtoms := 3, running := true }

-- ── Helper lemmas ──

/-- `writeBuf` never changes indices at or beyond the buffer capacity. -/
lemma writeBuf_high (a : ℕ → ℚ) (i : ℕ) (v : ℚ) (j : ℕ)
    (hj : MAX_ATOMS * 3 ≤ j) : writeBuf a i v j = a j := by
  have h : ¬ (i < MAX_ATOMS * 3 ∧ j = i) := by omega
  simp [writeBuf, h]

/-- Seeding one particle never changes indices beyond the buffer capacity. -/
lemma seedAtom_high (u : ℕ → ℚ) (i : ℕ) (ak : (ℕ → ℚ) × ℕ) (j : ℕ)
    (hj : MAX_ATOMS * 3 ≤ j) : (seedAtom u i ak).1 j = ak.1 j := by
  simp [seedAtom, writeBuf_high, hj]

/-- Seeding a range of particles never changes indices beyond the buffer
capacity. -/
lemma seedRange_high (u : ℕ → ℚ) (j : ℕ) (hj : MAX_ATOMS * 3 ≤ j) :
    ∀ (m lo : ℕ) (ak : (ℕ → ℚ) × ℕ), (seedRange u lo ak m).1 j = ak.1 j := by
  intro m
  induction m with
  | zero => intro lo ak; rfl
  | succ m ih =>
    intro lo ak
    rw [seedRange, seedAtom_high u _ _ j hj]
    exact ih lo ak

/-- Reading the buffer at any index other than the written one is
unaffected by `writeBuf`. -/
lemma writeBuf_ne (a : ℕ → ℚ) (i : ℕ) (v : ℚ) (j : ℕ) (h : j ≠ i) :
    writeBuf a i v j = a j := by
  simp [writeBuf, h]

/-- Reading the buffer at an in-capacity written index yields the written
value. -/
lemma writeBuf_eq (a : ℕ → ℚ) (i : ℕ) (v : ℚ) (h : i < MAX_ATOMS * 3) :
    writeBuf a i v i = v := by
  simp [writeBuf, h]

/-- Seeding particle `j` leaves every buffer index outside `j`'s three
slots unchanged. -/
lemma seedAtom_other (u : ℕ → ℚ) (j : ℕ) (ak : (ℕ → ℚ) × ℕ) (q : ℕ)
    (h0 : q ≠ j * 3) (h1 : q ≠ j * 3 + 1) (h2 : q ≠ j * 3 + 2) :
    (seedAtom u j ak).1 q = ak.1 q := by
  show writeBuf (writeBuf (writeBuf ak.1 (j * 3) 0) (j * 3 + 1)
      ((u ak.2 - 1 / 2) * DOMAIN_WIDTH)) (j * 3 + 2)
      ((u (ak.2 + 1) - 1 / 2) * DOMAIN_WIDTH) q = ak.1 q
  rw [writeBuf_ne _ _ _ _ h2, writeBuf_ne _ _ _ _ h1, writeBuf_ne _ _ _ _ h0]

/-- Seeding an in-capacity particle `i` puts it at the source plane
`x = 0` with lateral coordinates `(u − 1/2)·W` from its two draws. -/
lemma seedAtom_self (u : ℕ → ℚ) (i : ℕ) (ak : (ℕ → ℚ) × ℕ)
    (hi : i < MAX_ATOMS) :
    (seedAtom u i ak).1 (i * 3) = 0 ∧
    (seedAtom u i ak).1 (i * 3 + 1) = (u ak.2 - 1 / 2) * DOMAIN_WIDTH ∧
    (seedAtom u i ak).1 (i * 3 + 2) = (u (ak.2 + 1) - 1 / 2) * DOMAIN_WIDTH := by
  have hb0 : i * 3 < MAX_ATOMS * 3 := by omega
  have hb1 : i * 3 + 1 < MAX_ATOMS * 3 := by omega
  have hb2 : i * 3 + 2 < MAX_ATOMS * 3 := by omega
  have n01 : i * 3 ≠ i * 3 + 1 := by omega
  have n02 : i * 3 ≠ i * 3 + 2 := by omega
  have n12 : i * 3 + 1 ≠ i * 3 + 2 := by omega
  refine ⟨?_, ?_, ?_⟩
  · show writeBuf (writeBuf (writeBuf ak.1 (i * 3) 0) (i * 3 + 1)
        ((u ak.2 - 1 / 2) * DOMAIN_WIDTH)) (i * 3 + 2)
        ((u (ak.2 + 1) - 1 / 2) * DOMAIN_WIDTH) (i * 3) = 0
    rw [writeBuf_ne _ _ _ _ n02, writeBuf_ne _ _ _ _ n01, writeBuf_eq _ _ _ hb0]
  · show writeBuf (writeBuf (writeBuf ak.1 (i * 3) 0) (i * 3 + 1)
        ((u ak.2 - 1 / 2) * DOMAIN_WIDTH)) (i * 3 + 2)
        ((u (ak.2 + 1) - 1 / 2) * DOMAIN_WIDTH) (i * 3 + 1) =
      (u ak.2 - 1 / 2) * DOMAIN_WIDTH
    rw [writeBuf_ne _ _ _ _ n12, writeBuf_eq _ _ _ hb1]
  · show writeBuf (writeBuf (writeBuf ak.1 (i * 3) 0) (i * 3 + 1)
        ((u ak.2 - 1 / 2) * DOMAIN_WIDTH)) (i * 3 + 2)
        ((u (ak.2 + 1) - 1 / 2) * DOMAIN_WIDTH) (i * 3 + 2) =
      (u (ak.2 + 1) - 1 / 2) * DOMAIN_WIDTH
    rw [writeBuf_eq _ _ _ hb2]

/-- Seeding a range of `m` particles consumes exactly `2m` draws. -/
lemma seedRange_cursor (u : ℕ → ℚ) :
    ∀ (m lo : ℕ) (ak : (ℕ → ℚ) × ℕ), (seedRange u lo ak m).2 = ak.2 + 2 * m := by
  intro m
  induction m with
  | zero => intro lo ak; rfl
  | succ m ih =>
    intro lo ak
    rw [seedRange]
    have e : (seedAtom u (lo + m) (seedRange u lo ak m)).2 =
        (seedRange u lo ak m).2 + 2 := rfl
    rw [e, ih lo ak]
    omega

/-- After `seedRange`, every seeded in-capacity particle `i` sits at the
source plane `x = 0` with lateral coordinates determined by its two draws
(the `2(i - lo)`-th and next draw after the starting cursor). -/
lemma seedRange_seeded (u : ℕ → ℚ) :
    ∀ (m lo : ℕ) (ak : (ℕ → ℚ) × ℕ) (i : ℕ), lo ≤ i → i < lo + m →
    i < MAX_ATOMS →
    (seedRange u lo ak m).1 (i * 3) = 0 ∧
    (seedRange u lo ak m).1 (i * 3 + 1) =
      (u (ak.2 + 2 * (i - lo)) - 1 / 2) * DOMAIN_WIDTH ∧
    (seedRange u lo ak m).1 (i * 3 + 2) =
      (u (ak.2 + 2 * (i - lo) + 1) - 1 / 2) * DOMAIN_WIDTH := by
  intro m
  induction m with
  | zero =>
    intro lo ak i hlo hhi hcap
    exfalso
    omega
  | succ m ih =>
    intro lo ak i hlo hhi hcap
    rw [seedRange]
    by_cases hcase : i < lo + m
    · have hne : i ≠ lo + m := by omega
      obtain ⟨g0, g1, g2⟩ := ih lo ak i hlo hcase hcap
      refine ⟨?_, ?_, ?_⟩
      · rw [seedAtom_other u (lo + m) _ _ (by omega) (by omega) (by omega)]
        exact g0
      · rw [seedAtom_other u (lo + m) _ _ (by omega) (by omega) (by omega)]
        exact g1
      · rw [seedAtom_other u (lo + m) _ _ (by omega) (by omega) (by omega)]
        exact g2
    · have hieq : i = lo + m := by omega
      subst hieq
      have hs := seedAtom_self u (lo + m) (seedRange u lo ak m) hcap
      rw [seedRange_cursor u m lo ak] at hs
      have harith : lo + m - lo = m := by omega
      rw [harith]
      exact hs

/-- When the jump probability is non-positive, every particle is skipped
(`Math.random() ≥ 0 ≥ p`) and only the random cursor advances. -/
lemma stepAtom_skip (f : MathFns) (lam xMin xMax : ℚ) (caseNum : ℤ) (p : ℚ)
    (u : ℕ → ℚ) (ak : (ℕ → ℚ) × ℕ) (i : ℕ) (hp : p ≤ 0) (hu : ∀ j, 0 ≤ u j) :
    stepAtom f lam xMin xMax caseNum p u ak i = (ak.1, ak.2 + 1) := by
  unfold stepAtom
  rw [if_pos (hp.trans (hu ak.2))]

lemma stepAtoms_skip (f : MathFns) (lam xMin xMax : ℚ) (caseNum : ℤ) (p : ℚ)
    (u : ℕ → ℚ) (hp : p ≤ 0) (hu : ∀ j, 0 ≤ u j) :
    ∀ (n : ℕ) (ak : (ℕ → ℚ) × ℕ),
      stepAtoms f lam xMin xMax caseNum p u ak n = (ak.1, ak.2 + n) := by
  intro n
  induction n with
  | zero => intro ak; rfl
  | succ n ih =>
    intro ak
    rw [stepAtoms, ih ak, stepAtom_skip f lam xMin xMax caseNum p u _ n hp hu]
    rfl

lemma stepSub_skip (f : MathFns) (lam xMin xMax : ℚ) (caseNum : ℤ)
    (gamma subDt : ℚ) (nAtoms : ℕ) (u : ℕ → ℚ) (hp : gamma * subDt ≤ 0)
    (hu : ∀ j, 0 ≤ u j) :
    ∀ (m : ℕ) (ak : (ℕ → ℚ) × ℕ),
      stepSub f lam xMin xMax caseNum gamma subDt nAtoms u ak m =
        (ak.1, ak.2 + m * nAtoms) := by
  intro m
  induction m with
  | zero => intro ak; simp [stepSub]
  | succ m ih =>
    intro ak
    rw [stepSub, ih ak, stepAtoms_skip f lam xMin xMax caseNum _ u hp hu]
    have h2 : ak.2 + m * nAtoms + nAtoms = ak.2 + (m + 1) * nAtoms := by ring
    rw [← h2]

/-- Core no-jump lemma for `step`: if the per-sub-step jump probability is
non-positive (and random draws are non-negative), positions are unchanged
and time advances by `dt · speed` exactly when the engine is running. -/
lemma step_skip (s : DiffusionSim) (f : MathFns) (dt : ℚ) (u : ℕ → ℚ) (k : ℕ)
    (hu : ∀ j, 0 ≤ u j)
    (hp : s.gamma *
      (dt * s.speed / (((max 1 ⌈s.gamma * (dt * s.speed)⌉).toNat : ℕ) : ℚ)) ≤ 0) :
    (s.step f dt u k).1.atoms = s.atoms ∧
    (s.step f dt u k).1.time =
      (if s.running then s.time + dt * s.speed else s.time) := by
  rcases Bool.eq_false_or_eq_true s.running with hr | hr
  · unfold DiffusionSim.step
    rw [hr]
    simp
    rw [stepSub_skip f s.lambda s.domainMin s.domainMax s.caseNum s.gamma _
      s.numAtoms u hp hu]
  · unfold DiffusionSim.step
    rw [hr]
    simp

-- ── Claim theorems ──

/-- Claim C10: whenever the running flag is false, `step(dt)` returns
immediately and leaves the entire simulation state (and random cursor)
unchanged, for every `dt`, speed and parameters. -/
theorem step_not_running_noop (s : DiffusionSim) (f : MathFns) (dt : ℚ)
    (u : ℕ → ℚ) (k : ℕ) (h : s.running = false) : s.step f dt u k = (s, k) := by
  unfold DiffusionSim.step
  rw [h]
  simp

/-- Claim C10, witness: the paused base state is returned unchanged by a
step of `dt = 5`. -/
theorem step_not_running_noop_witness :
    baseSim.running = false ∧ baseSim.step trivFns 5 uHalf 0 = (baseSim, 0) :=
  ⟨rfl, step_not_running_noop baseSim trivFns 5 uHalf 0 rfl⟩

/-- Claim C9: with `Γ = 0` the jump probability of every sub-step is
`0 · subDt = 0`, every draw `Math.random() ∈ [0, 1)` is `≥ 0`, so no
particle ever jumps: `step(dt)` leaves every particle position unchanged
for any `dt` and any random stream. -/
theorem step_gamma_zero_positions_fixed (s : DiffusionSim) (f : MathFns)
    (dt : ℚ) (u : ℕ → ℚ) (k : ℕ) (hg : s.gamma = 0) (hu : ∀ j, 0 ≤ u j) :
    (s.step f dt u k).1.atoms = s.atoms := by
  have hp : s.gamma *
      (dt * s.speed / (((max 1 ⌈s.gamma * (dt * s.speed)⌉).toNat : ℕ) : ℚ)) ≤ 0 := by
    rw [hg]
    simp
  exact (step_skip s f dt u k hu hp).1

/-- Claim C9, witness: a running 3-particle state with `Γ = 0` keeps its
position buffer across a step of `dt = 5`. -/
theorem step_gamma_zero_positions_fixed_witness :
    sG0.gamma = 0 ∧ (∀ j, 0 ≤ uHalf j) ∧
    (sG0.step trivFns 5 uHalf 0).1.atoms = sG0.atoms :=
  ⟨rfl, fun j => by norm_num [uHalf],
    step_gamma_zero_positions_fixed sG0 trivFns 5 uHalf 0 rfl
      (fun j => by norm_num [uHalf])⟩

/-- Claim C1, counterexample: the claim says that for `dt ≤ 0` the elapsed
time is unchanged, but on a running state `step(-1)` adds
`simDt = dt · speed = -1` to the clock: `time` moves from `0` to `-1`. -/
theorem step_nonpos_dt_claim_counterexample :
    ((-1 : ℚ) ≤ 0) ∧ sRun.running = true ∧
    (sRun.step trivFns (-1) uHalf 0).1.time ≠ sRun.time := by
  refine ⟨by norm_num, rfl, ?_⟩
  have h : (sRun.step trivFns (-1) uHalf 0).1.time = (0 : ℚ) + (-1 * 1) := rfl
  have h2 : sRun.time = (0 : ℚ) := rfl
  rw [h, h2]
  norm_num

/-- Claim C1 (amended): for `Γ ≥ 0`, `speed ≥ 0`, `dt ≤ 0` and any random
stream of draws in `[0, ∞)`, `step(dt)` leaves every particle position
unchanged; the elapsed time is not unchanged in general — it advances by
exactly `dt · speed` when running (and the state is untouched when
paused). -/
theorem step_nonpos_dt (s : DiffusionSim) (f : MathFns) (dt : ℚ) (u : ℕ → ℚ)
    (k : ℕ) (hg : 0 ≤ s.gamma) (hs : 0 ≤ s.speed) (hdt : dt ≤ 0)
    (hu : ∀ j, 0 ≤ u j) :
    (s.step f dt u k).1.atoms = s.atoms ∧
    (s.step f dt u k).1.time =
      (if s.running then s.time + dt * s.speed else s.time) := by
  have hsim : dt * s.speed ≤ 0 := mul_nonpos_iff.mpr (Or.inr ⟨hdt, hs⟩)
  have h1 : (1 : ℤ) ≤ max 1 ⌈s.gamma * (dt * s.speed)⌉ := le_max_left _ _
  have h2 : 1 ≤ (max 1 ⌈s.gamma * (dt * s.speed)⌉).toNat := by omega
  have hn : (0 : ℚ) < (((max 1 ⌈s.gamma * (dt * s.speed)⌉).toNat : ℕ) : ℚ) := by
    exact_mod_cast Nat.lt_of_lt_of_le Nat.zero_lt_one h2
  have hsub : dt * s.speed /
      (((max 1 ⌈s.gamma * (dt * s.speed)⌉).toNat : ℕ) : ℚ) ≤ 0 := by
    rw [div_eq_mul_inv]
    exact mul_nonpos_iff.mpr (Or.inr ⟨hsim, inv_nonneg.mpr hn.le⟩)
  have hp : s.gamma *
      (dt * s.speed / (((max 1 ⌈s.gamma * (dt * s.speed)⌉).toNat : ℕ) : ℚ)) ≤ 0 :=
    mul_nonpos_iff.mpr (Or.inl ⟨hg, hsub⟩)
  exact step_skip s f dt u k hu hp

/-- Claim C1 (amended), witness: a running two-particle state stepped with
`dt = -2` keeps its positions and its clock moves by `-2 · 1`. -/
theorem step_nonpos_dt_witness :
    ((-2 : ℚ) ≤ 0) ∧ (sRun2.step trivFns (-2) uHalf 0).1.atoms = sRun2.atoms ∧
    (sRun2.step trivFns (-2) uHalf 0).1.time =
      (if sRun2.running then sRun2.time + (-2) * sRun2.speed else sRun2.time) := by
  have h := step_nonpos_dt sRun2 trivFns (-2) uHalf 0 (by decide) (by decide)
    (by norm_num) (fun j => by norm_num [uHalf])
  exact ⟨by norm_num, h.1, h.2⟩

/-- Claim C3, counterexample: `setCase(5)` with `5 ∉ {1,2,3}` does not fail
and does not leave the state unchanged — the case number simply becomes 5. -/
theorem setCase_claim_counterexample :
    (¬ ((5 : ℤ) = 1 ∨ (5 : ℤ) = 2 ∨ (5 : ℤ) = 3)) ∧
    (sEmpty.setCase 5 uHalf 0).1.caseNum = 5 ∧ sEmpty.caseNum ≠ 5 :=
  ⟨by decide, rfl, by decide⟩

/-- Claim C3 (amended): `setCase(n)` performs no validation: for every `n`
(in `{1,2,3}` or not) it sets the case number to `n` and performs a full
reset — elapsed time is zeroed and every active in-capacity particle is
reseeded at the source plane (`x = 0`, lateral `y`/`z` equal to
`(draw − 1/2)·W` from its two consecutive draws), touching only
in-capacity buffer slots — while parameters, particle count, running flag
and speed are unchanged; no error is ever raised. -/
theorem setCase_no_validation (s : DiffusionSim) (n : ℤ) (u : ℕ → ℚ) (k : ℕ) :
    (s.setCase n u k).1.caseNum = n ∧ (s.setCase n u k).1.time = 0 ∧
    (s.setCase n u k).1.gamma = s.gamma ∧ (s.setCase n u k).1.lambda = s.lambda ∧
    (s.setCase n u k).1.numAtoms = s.numAtoms ∧
    (s.setCase n u k).1.running = s.running ∧
    (s.setCase n u k).1.speed = s.speed ∧
    (∀ j, (s.setCase n u k).1.atoms (MAX_ATOMS * 3 + j) =
      s.atoms (MAX_ATOMS * 3 + j)) ∧
    ∀ i, i < s.numAtoms → i < MAX_ATOMS →
      (s.setCase n u k).1.atoms (i * 3) = 0 ∧
      (s.setCase n u k).1.atoms (i * 3 + 1) =
        (u (k + 2 * i) - 1 / 2) * DOMAIN_WIDTH ∧
      (s.setCase n u k).1.atoms (i * 3 + 2) =
        (u (k + 2 * i + 1) - 1 / 2) * DOMAIN_WIDTH :=
  ⟨rfl, rfl, rfl, rfl, rfl, rfl, rfl,
    fun j => seedRange_high u (MAX_ATOMS * 3 + j) (Nat.le_add_right _ _) _ _ _,
    fun i hi hcap =>
      seedRange_seeded u s.numAtoms 0 (s.atoms, k) i (Nat.zero_le i)
        (by omega) hcap⟩

/-- Claim C3 (amended), witness: `setCase(2)` on the base state makes the
case number 2, zeroes the clock, and reseeds particle 0 at the source
plane with its lateral `y` drawn from the stream. -/
theorem setCase_no_validation_witness :
    (baseSim.setCase 2 uHalf 0).1.caseNum = 2 ∧
    (baseSim.setCase 2 uHalf 0).1.time = 0 ∧
    (baseSim.setCase 2 uHalf 0).1.atoms 0 = 0 ∧
    (baseSim.setCase 2 uHalf 0).1.atoms 1 = (uHalf 0 - 1 / 2) * DOMAIN_WIDTH := by
  have h := setCase_no_validation baseSim 2 uHalf 0
  have h9 := h.2.2.2.2.2.2.2.2 0 (by decide) (by decide)
  exact ⟨h.1, h.2.1, h9.1, h9.2.1⟩

/-- Claim C4, counterexample: `setNumAtoms(5001)` with `5001 > MAX_ATOMS`
does not fail and does not leave the state unchanged — the active count
simply becomes 5001 (the out-of-bounds buffer writes are silently
dropped). -/
theorem setNumAtoms_claim_counterexample :
    MAX_ATOMS < 5001 ∧ (sFull.setNumAtoms 5001 uHalf 0).1.numAtoms = 5001 ∧
    sFull.numAtoms ≠ 5001 :=
  ⟨by decide, rfl, by decide⟩

/-- Claim C4 (amended): `setNumAtoms(n)` performs no capacity check: for
every `n` (beyond `MAX_ATOMS` or not) the active count becomes `n`; each
newly activated in-capacity slot is seeded at the source plane (`x = 0`,
lateral `y`/`z` equal to `(draw − 1/2)·W` from its two consecutive
draws), writes beyond the buffer capacity are silently dropped, every
other field is unchanged, and no error is ever raised. -/
theorem setNumAtoms_no_capacity_check (s : DiffusionSim) (n : ℕ) (u : ℕ → ℚ)
    (k : ℕ) :
    (s.setNumAtoms n u k).1.numAtoms = n ∧
    (s.setNumAtoms n u k).1.caseNum = s.caseNum ∧
    (s.setNumAtoms n u k).1.gamma = s.gamma ∧
    (s.setNumAtoms n u k).1.lambda = s.lambda ∧
    (s.setNumAtoms n u k).1.time = s.time ∧
    (s.setNumAtoms n u k).1.running = s.running ∧
    (s.setNumAtoms n u k).1.speed = s.speed ∧
    (∀ j, (s.setNumAtoms n u k).1.atoms (MAX_ATOMS * 3 + j) =
      s.atoms (MAX_ATOMS * 3 + j)) ∧
    ∀ i, s.numAtoms ≤ i → i < n → i < MAX_ATOMS →
      (s.setNumAtoms n u k).1.atoms (i * 3) = 0 ∧
      (s.setNumAtoms n u k).1.atoms (i * 3 + 1) =
        (u (k + 2 * (i - s.numAtoms)) - 1 / 2) * DOMAIN_WIDTH ∧
      (s.setNumAtoms n u k).1.atoms (i * 3 + 2) =
        (u (k + 2 * (i - s.numAtoms) + 1) - 1 / 2) * DOMAIN_WIDTH := by
  by_cases h : s.numAtoms < n
  · rw [DiffusionSim.setNumAtoms, if_pos h]
    refine ⟨rfl, rfl, rfl, rfl, rfl, rfl, rfl,
      fun j => seedRange_high u (MAX_ATOMS * 3 + j) (Nat.le_add_right _ _) _ _ _,
      ?_⟩
    intro i hge hlt hcap
    exact seedRange_seeded u (n - s.numAtoms) s.numAtoms (s.atoms, k) i hge
      (by omega) hcap
  · rw [DiffusionSim.setNumAtoms, if_neg h]
    refine ⟨rfl, rfl, rfl, rfl, rfl, rfl, rfl, fun _ => rfl, ?_⟩
    intro i hge hlt hcap
    exfalso
    omega

/-- Claim C4 (amended), witness: growing an empty state to one particle
activates slot 0, seeded at the source plane with its lateral `z` drawn
from the stream, while the clock is untouched. -/
theorem setNumAtoms_no_capacity_check_witness :
    (sEmpty.setNumAtoms 1 uHalf 0).1.numAtoms = 1 ∧
    (sEmpty.setNumAtoms 1 uHalf 0).1.time = sEmpty.time ∧
    (sEmpty.setNumAtoms 1 uHalf 0).1.atoms 0 = 0 ∧
    (sEmpty.setNumAtoms 1 uHalf 0).1.atoms 2 =
      (uHalf 1 - 1 / 2) * DOMAIN_WIDTH := by
  have h := setNumAtoms_no_capacity_check sEmpty 1 uHalf 0
  have h9 := h.2.2.2.2.2.2.2.2 0 (by decide) (by decide) (by decide)
  exact ⟨h.1, h.2.2.2.2.1, h9.1, h9.2.2⟩

/-- Claim C5: the per-case x-axis boundary correction applied by `step` to
a raw post-jump `x`: SemiInfiniteSource (case 1) clamps `x < 0` to `0` and
`x > xMax` to `xMax`; PlanarSourceInfinite (case 2) clamps to
`[xMin, xMax]`; ThinFilmSemiInfinite (case 3) reflects `x < 0` to `-x`
(clamping a reflected result beyond `xMax`) and clamps `x > xMax` to
`xMax`; a value already inside the case's bounds is unchanged. -/
theorem correctX_cases (s : DiffusionSim) (x : ℚ) :
    (s.caseNum = 1 ∧ x < 0 →
      correctX s.caseNum s.domainMin s.domainMax x = 0) ∧
    (s.caseNum = 1 ∧ x > s.domainMax →
      correctX s.caseNum s.domainMin s.domainMax x = s.domainMax) ∧
    (s.caseNum = 1 ∧ 0 ≤ x ∧ x ≤ s.domainMax →
      correctX s.caseNum s.domainMin s.domainMax x = x) ∧
    (s.caseNum = 2 ∧ x < s.domainMin →
      correctX s.caseNum s.domainMin s.domainMax x = s.domainMin) ∧
    (s.caseNum = 2 ∧ x > s.domainMax →
      correctX s.caseNum s.domainMin s.domainMax x = s.domainMax) ∧
    (s.caseNum = 2 ∧ s.domainMin ≤ x ∧ x ≤ s.domainMax →
      correctX s.caseNum s.domainMin s.domainMax x = x) ∧
    (s.caseNum = 3 ∧ x < 0 ∧ -x ≤ s.domainMax →
      correctX s.caseNum s.domainMin s.domainMax x = -x) ∧
    (s.caseNum = 3 ∧ x < 0 ∧ s.domainMax < -x →
      correctX s.caseNum s.domainMin s.domainMax x = s.domainMax) ∧
    (s.caseNum = 3 ∧ x > s.domainMax →
      correctX s.caseNum s.domainMin s.domainMax x = s.domainMax) ∧
    (s.caseNum = 3 ∧ 0 ≤ x ∧ x ≤ s.domainMax →
      correctX s.caseNum s.domainMin s.domainMax x = x) := by
  refine ⟨?_, ?_, ?_, ?_, ?_, ?_, ?_, ?_, ?_, ?_⟩
  · rintro ⟨hc, hx⟩
    have hmax : s.domainMax = 100 := by
      rw [DiffusionSim.domainMax, hc]; norm_num [DOMAIN_LENGTH]
    rw [hc, hmax]
    unfold correctX
    split_ifs <;> first | rfl | linarith | simp_all
  · rintro ⟨hc, hx⟩
    have hmax : s.domainMax = 100 := by
      rw [DiffusionSim.domainMax, hc]; norm_num [DOMAIN_LENGTH]
    rw [hmax] at hx
    rw [hc, hmax]
    unfold correctX
    split_ifs <;> first | rfl | linarith | simp_all
  · rintro ⟨hc, hx1, hx2⟩
    have hmax : s.domainMax = 100 := by
      rw [DiffusionSim.domainMax, hc]; norm_num [DOMAIN_LENGTH]
    rw [hmax] at hx2
    rw [hc, hmax]
    unfold correctX
    split_ifs <;> first | rfl | linarith | simp_all
  · rintro ⟨hc, hx⟩
    have hmin : s.domainMin = -50 := by
      rw [DiffusionSim.domainMin, hc]; norm_num [DOMAIN_LENGTH]
    have hmax : s.domainMax = 50 := by
      rw [DiffusionSim.domainMax, hc]; norm_num [DOMAIN_LENGTH]
    rw [hmin] at hx
    rw [hc, hmin, hmax]
    unfold correctX
    split_ifs <;> first | rfl | linarith | simp_all
  · rintro ⟨hc, hx⟩
    have hmin : s.domainMin = -50 := by
      rw [DiffusionSim.domainMin, hc]; norm_num [DOMAIN_LENGTH]
    have hmax : s.domainMax = 50 := by
      rw [DiffusionSim.domainMax, hc]; norm_num [DOMAIN_LENGTH]
    rw [hmax] at hx
    rw [hc, hmin, hmax]
    unfold correctX
    split_ifs <;> first | rfl | linarith | simp_all
  · rintro ⟨hc, hx1, hx2⟩
    have hmin : s.domainMin = -50 := by
      rw [DiffusionSim.domainMin, hc]; norm_num [DOMAIN_LENGTH]
    have hmax : s.domainMax = 50 := by
      rw [DiffusionSim.domainMax, hc]; norm_num [DOMAIN_LENGTH]
    rw [hmin] at hx1
    rw [hmax] at hx2
    rw [hc, hmin, hmax]
    unfold correctX
    split_ifs <;> first | rfl | linarith | simp_all
  · rintro ⟨hc, hx1, hx2⟩
    have hmax : s.domainMax = 100 := by
      rw [DiffusionSim.domainMax, hc]; norm_num [DOMAIN_LENGTH]
    rw [hmax] at hx2
    rw [hc, hmax]
    unfold correctX
    split_ifs <;> first | rfl | linarith | simp_all
  · rintro ⟨hc, hx1, hx2⟩
    have hmax : s.domainMax = 100 := by
      rw [DiffusionSim.domainMax, hc]; norm_num [DOMAIN_LENGTH]
    rw [hmax] at hx2
    rw [hc, hmax]
    unfold correctX
    split_ifs <;> first | rfl | linarith | simp_all
  · rintro ⟨hc, hx⟩
    have hmax : s.domainMax = 100 := by
      rw [DiffusionSim.domainMax, hc]; norm_num [DOMAIN_LENGTH]
    rw [hmax] at hx
    rw [hc, hmax]
    unfold correctX
    split_ifs <;> first | rfl | linarith | simp_all
  · rintro ⟨hc, hx1, hx2⟩
    have hmax : s.domainMax = 100 := by
      rw [DiffusionSim.domainMax, hc]; norm_num [DOMAIN_LENGTH]
    rw [hmax] at hx2
    rw [hc, hmax]
    unfold correctX
    split_ifs <;> first | rfl | linarith | simp_all


/-- Claim C5, witness: the spec's own test vectors — case 1 sends `-3` to
`0`, case 2 sends `-60` to the domain minimum `-50`, case 3 reflects `-3`
to `3`. -/
theorem correctX_cases_witness :
    correctX 1 baseSim.domainMin baseSim.domainMax (-3) = 0 ∧
    correctX 2 simCase2.domainMin simCase2.domainMax (-60) = -50 ∧
    correctX 3 simCase3.domainMin simCase3.domainMax (-3) = 3 := by
  refine ⟨(correctX_cases baseSim (-3)).1 ⟨rfl, by norm_num⟩, ?_, ?_⟩
  · have h := (correctX_cases simCase2 (-60)).2.2.2.1
      ⟨rfl, by norm_num [simCase2, baseSim, DiffusionSim.domainMin, DOMAIN_LENGTH]⟩
    have h2 : simCase2.domainMin = -50 := by
      norm_num [simCase2, baseSim, DiffusionSim.domainMin, DOMAIN_LENGTH]
    exact h.trans h2
  · have h := (correctX_cases simCase3 (-3)).2.2.2.2.2.2.1
      ⟨rfl, by norm_num,
        by norm_num [simCase3, baseSim, DiffusionSim.domainMax, DOMAIN_LENGTH]⟩
    exact h.trans (by norm_num)

/-- Claim C6, counterexample: the claim quantifies over any raw `y` outside
`[-W/2, W/2]`, but the wrap subtracts at most one period: the raw value 10
is corrected to `10 - 4 = 6`, which is still outside `[-2, 2]`. -/
theorem wrapPeriodic_claim_counterexample :
    (DOMAIN_WIDTH / 2 < 10) ∧ wrapPeriodic 10 = 6 ∧
    ¬ (wrapPeriodic 10 ≤ DOMAIN_WIDTH / 2) := by
  refine ⟨by norm_num [DOMAIN_WIDTH], ?_, ?_⟩ <;>
    norm_num [wrapPeriodic, DOMAIN_WIDTH]

/-- Claim C6 (amended): the corrected `y` (or `z`) always differs from the
raw value by an integer multiple of `W = DOMAIN_WIDTH`, and it lies within
`[-W/2, W/2]` provided the raw value lies within one period of that band,
i.e. in `[-3W/2, 3W/2]` (which holds for every displacement of magnitude at
most `W` from an in-band position). -/
theorem wrapPeriodic_spec (y : ℚ) (h1 : -(3 * (DOMAIN_WIDTH / 2)) ≤ y)
    (h2 : y ≤ 3 * (DOMAIN_WIDTH / 2)) :
    (∃ m : ℤ, wrapPeriodic y = y + m * DOMAIN_WIDTH) ∧
    -(DOMAIN_WIDTH / 2) ≤ wrapPeriodic y ∧ wrapPeriodic y ≤ DOMAIN_WIDTH / 2 := by
  have hW : DOMAIN_WIDTH = 4 := rfl
  rw [hW] at h1 h2 ⊢
  unfold wrapPeriodic
  rw [hW]
  split_ifs with ha hb
  · exact ⟨⟨1, by push_cast; ring⟩, by linarith, by linarith⟩
  · exact ⟨⟨-1, by push_cast; ring⟩, by linarith, by linarith⟩
  · exact ⟨⟨0, by push_cast; ring⟩, by linarith, by linarith⟩

/-- Claim C6 (amended), witness: the raw value 3 lies outside the band but
within one period; it wraps to `-1 ∈ [-2, 2]`, a shift by one period. -/
theorem wrapPeriodic_spec_witness :
    (∃ m : ℤ, wrapPeriodic 3 = 3 + m * DOMAIN_WIDTH) ∧
    -(DOMAIN_WIDTH / 2) ≤ wrapPeriodic 3 ∧ wrapPeriodic 3 ≤ DOMAIN_WIDTH / 2 :=
  wrapPeriodic_spec 3 (by norm_num [DOMAIN_WIDTH]) (by norm_num [DOMAIN_WIDTH])

/-- One histogram increment raises the total of the bins by at most one
(exactly one when the target bin is in range, which `binOf` guarantees). -/
lemma binsTotal_binIncr_le (bins : ℕ → ℕ) (b : ℕ) :
    binsTotal (binIncr bins b) ≤ binsTotal bins + 1 := by
  unfold binsTotal binIncr
  calc (∑ j ∈ Finset.range NUM_BINS, if j = b then bins j + 1 else bins j)
      ≤ ∑ j ∈ Finset.range NUM_BINS, (bins j + if j = b then 1 else 0) := by
        apply Finset.sum_le_sum
        intro j _
        split_ifs <;> simp
    _ = (∑ j ∈ Finset.range NUM_BINS, bins j) +
        ∑ j ∈ Finset.range NUM_BINS, (if j = b then 1 else 0) :=
        Finset.sum_add_distrib
    _ ≤ (∑ j ∈ Finset.range NUM_BINS, bins j) + 1 := by
        apply Nat.add_le_add_left
        rw [Finset.sum_ite_eq']
        split_ifs <;> simp

/-- Each of the first `n` particles contributes at most one bin count. -/
lemma histLoop_total_le (lo hi binW : ℚ) (a : ℕ → ℚ) :
    ∀ n, binsTotal (histLoop lo hi binW a n) ≤ n := by
  intro n
  induction n with
  | zero => simp [histLoop, binsTotal]
  | succ n ih =>
    rw [histLoop]
    split_ifs
    · exact le_trans ih (Nat.le_succ n)
    · exact le_trans (binsTotal_binIncr_le _ _) (Nat.succ_le_succ ih)

/-- Claim C7: in every simulation state the sum of the bin counts returned
by `getHistogram()` is at most the active particle count `numAtoms`: each
active particle increments at most one bin, and particles with `x` outside
`[visibleMin, visibleMax)` are skipped rather than clipped into edge
bins. -/
theorem getHistogram_total_le_numAtoms (s : DiffusionSim) :
    binsTotal s.getHistogram ≤ s.numAtoms :=
  histLoop_total_le _ _ _ _ s.numAtoms

/-- Claim C8: for all parameters `Γ > 0`, `λ > 0`, the derived diffusion
coefficient on the state carrying the current parameters is exactly
`Γ·λ²/6`; `D` is a function of the state's current `gamma`/`lambda` fields
(the state stores no `D`), recomputed on every access. -/
theorem D_eq_gamma_lambda_sq_div_six (g l : ℚ) (s : DiffusionSim)
    (hg : 0 < g) (hl : 0 < l) :
    ({ s with gamma := g, lambda := l } : DiffusionSim).D = g * l ^ 2 / 6 := by
  show g * l * l / 6 = g * l ^ 2 / 6
  ring

/-- Claim C8, witness: with the default parameters `Γ = 20`, `λ = 1/2`,
the diffusion coefficient is `20 · (1/2)² / 6 = 5/6`. -/
theorem D_eq_gamma_lambda_sq_div_six_witness :
    (0 : ℚ) < 20 ∧ (0 : ℚ) < 1 / 2 ∧
    ({ baseSim with gamma := 20, lambda := 1 / 2 } : DiffusionSim).D =
      20 * (1 / 2) ^ 2 / 6 :=
  ⟨by norm_num, by norm_num,
    D_eq_gamma_lambda_sq_div_six 20 (1 / 2) baseSim (by norm_num) (by norm_num)⟩

/-- Claim C2, counterexample: at `x = -1` (so `|x| ≥ 0.01`) with `Dt < ε`
in case 1, the claim predicts 0, but the source tests `x < 0.01` without an
absolute value and returns 1. -/
theorem analyticalAt_claim_counterexample :
    baseSim.caseNum = 1 ∧ baseSim.D * baseSim.time < 1 / 1000000000 ∧
    ¬ (|(-1 : ℚ)| < 1 / 100) ∧ baseSim.analyticalAt trivFns (-1) = 1 := by
  refine ⟨rfl, by norm_num [baseSim, DiffusionSim.D], by norm_num, ?_⟩
  norm_num [DiffusionSim.analyticalAt, baseSim, DiffusionSim.D]

/-- Claim C2 (amended): whenever `D·t < 1e-9`, `analyticalAt(x)` returns,
in case SemiInfiniteSource, 1 if `x < 0.01` (signed, not `|x| < 0.01`) and
0 otherwise; and 0 for every `x` in cases PlanarSourceInfinite and
ThinFilmSemiInfinite. -/
theorem analyticalAt_small_Dt (s : DiffusionSim) (f : MathFns) (x : ℚ)
    (h : s.D * s.time < 1 / 1000000000) :
    (s.caseNum = 1 → s.analyticalAt f x = if x < 1 / 100 then 1 else 0) ∧
    ((s.caseNum = 2 ∨ s.caseNum = 3) → s.analyticalAt f x = 0) := by
  unfold DiffusionSim.analyticalAt
  constructor
  · intro hc
    rw [hc]
    simp [h]
    intro h'
    exfalso
    linarith
  · rintro (hc | hc) <;> rw [hc] <;> simp [h] <;> intro h' <;> exfalso <;>
      linarith

/-- Claim C2 (amended), witness: in the initial case-1 state (`t = 0`, so
`Dt = 0 < ε`), the analytical value at `x = 5 ≥ 0.01` is 0. -/
theorem analyticalAt_small_Dt_witness :
    baseSim.D * baseSim.time < 1 / 1000000000 ∧
    baseSim.analyticalAt trivFns 5 = 0 := by
  have h : baseSim.D * baseSim.time < 1 / 1000000000 := by
    norm_num [baseSim, DiffusionSim.D]
  refine ⟨h, ?_⟩
  have h2 := (analyticalAt_small_Dt baseSim trivFns 5 h).1 rfl
  rw [h2]
  norm_num
